import Mathlib

/-!
# mass-rename: the command-line driver (`cmd/mass-rename/main.go`)

A shallow embedding of the driver.  Everything the driver does to the outside
world (files, the walker, the editor, standard input and output, the parser
and the batch executor of the library package) is recorded as an `Event` in a
trace; what the outside world answers is read from an `Env`.  A run ends by
returning from `main`, by `os.Exit`, or by a run-time panic.
-/

namespace MassRename

/-! ## Data model -/

/-- One mapping entry, the record `ParseMassRenameMap` returns a slice of and
`MassRename` consumes (fields `Old` and `New` as used at main.go:84 and 112). -/
structure RenameEntry where
  Old : String
  New : String
  deriving DecidableEq, Repr

/-- The part of `io/fs.FileInfo` the walk callback reads: `Name()` and `IsDir()`. -/
structure FileInfo where
  Name : String
  IsDir : Bool
  deriving DecidableEq, Repr

/-- One call the walker makes to its callback: the three arguments
`(path, info, err)`.  `info = none` is a nil `FileInfo`, `err = none` a nil error. -/
structure Visit where
  path : String
  info : Option FileInfo
  err : Option String
  deriving DecidableEq, Repr

/-- The command-line flags (main.go:17-22), after `flag.Parse()`. -/
structure Flags where
  fileFlag : String := ""
  genFlag : String := ""
  patternFlag : String := "*"
  yesFlag : Bool := false

/-- Every observable step of a run, in the order the driver performs it. -/
inductive Event where
  /-- `os.Create(*genFlag)` (main.go:28). -/
  | osCreate (path : String)
  /-- `os.CreateTemp("", "*.mass-rename")` (main.go:39). -/
  | createTemp
  /-- `afero.Walk(fs, ".", ...)` (main.go:122). -/
  | walk (root : String)
  /-- `w.WriteString(s)` on the sink `w` (main.go:135); `ok` tells whether it succeeded. -/
  | writeString (w : String) (s : String) (ok : Bool)
  /-- Text sent to standard output by `fmt.Println` or `fmt.Printf`. -/
  | stdout (s : String)
  /-- `cmd.Start()` of `/usr/bin/editor <file>` (main.go:148). -/
  | editorStart (file : String)
  /-- `cmd.Wait()` (main.go:153). -/
  | editorWait
  /-- `tmpFile.Seek(0, io.SeekStart)` (main.go:53). -/
  | seekStart (file : String)
  /-- `os.Open(*fileFlag)` (main.go:59). -/
  | osOpen (path : String)
  /-- `massRename.ParseMassRenameMap(mappingFile)` (main.go:71). -/
  | parseMap (file : String)
  /-- `bufio.NewReader(os.Stdin).ReadString('\n')` (main.go:91). -/
  | readStdin
  /-- `massRename.MassRename(afero.NewOsFs(), renameMap)` (main.go:106). -/
  | massRename (renameMap : List RenameEntry)
  /-- A deferred `Close()` (main.go:45, 65). -/
  | close (file : String)
  /-- The deferred `os.Remove(tmpFile.Name())` (main.go:46). -/
  | remove (file : String)
  deriving DecidableEq, Repr

/-- What the outside world answers to each step.  Errors are carried as the
text their `Error()` method prints; `none` is a nil error. -/
structure Env where
  /-- Error of `os.Create(*genFlag)`. -/
  osCreate : Option String
  /-- Result of `os.CreateTemp`: an error, or the name of the new file. -/
  createTemp : Except String String
  /-- The calls `afero.Walk` makes to the callback for as long as the callback
  returns nil, in order. -/
  visits : List Visit
  /-- The function `filepath.Match pattern name`: `(matched, err)`. -/
  Match : String → String → Bool × Option String
  /-- Error of the `i`-th `WriteString` call on the sink (counted from 0). -/
  writeErr : Nat → Option String
  /-- Error of `cmd.Start()`. -/
  editorStart : Option String
  /-- Error of `cmd.Wait()`. -/
  editorWait : Option String
  /-- Error of `tmpFile.Seek`. -/
  seek : Option String
  /-- Error of `os.Open(*fileFlag)`. -/
  osOpen : Option String
  /-- Result of `ParseMassRenameMap` on the mapping file. -/
  parse : Except String (List RenameEntry)
  /-- Result of `ReadString('\n')` on standard input: an error, or the line. -/
  readLine : Except String String
  /-- The function `strings.TrimSpace`. -/
  TrimSpace : String → String
  /-- The function `strings.ToLower`. -/
  ToLower : String → String
  /-- The slice of errors `MassRename` returns. -/
  batch : List (Option String)

/-! ## The process monad -/

/-- The state of a running process: the trace so far, and the calls deferred by
`main` that are still pending (the one to run first at the head). -/
structure St where
  trace : List Event := []
  defers : List Event := []
  deriving DecidableEq, Repr

/-- How a computation leaves: with a value, by `os.Exit code`, or by a panic. -/
inductive Res (α : Type) where
  | ok (a : α) (s : St)
  | exit (code : Nat) (s : St)
  | fault (s : St)

/-- A computation of the driver. -/
def Proc (α : Type) : Type := St → Res α

/-- Sequencing: `os.Exit` and a panic skip everything that follows. -/
def Proc.bind {α β : Type} (x : Proc α) (f : α → Proc β) : Proc β := fun s =>
  match x s with
  | .ok a s1 => f a s1
  | .exit c s1 => .exit c s1
  | .fault s1 => .fault s1

instance : Monad Proc where
  pure a := fun s => .ok a s
  bind := Proc.bind

/-- Record one step. -/
def emit (ev : Event) : Proc Unit := fun s =>
  .ok () { s with trace := s.trace ++ [ev] }

/-- Print to standard output. -/
def println (text : String) : Proc Unit := emit (.stdout (text ++ "\n"))

/-- The call `os.Exit(code)`: the process ends at once, deferred calls do not run. -/
def osExit {α : Type} (code : Nat) : Proc α := fun s => .exit code s

/-- A run-time panic (here: a nil dereference). -/
def nilDeref {α : Type} : Proc α := fun s => .fault s

/-- Record several steps at once (a loop whose body only prints). -/
def emitAll (evs : List Event) : Proc Unit := fun s =>
  .ok () { s with trace := s.trace ++ evs }

/-- A `defer` statement of `main`: the calls run when `main` returns or panics,
last deferred first. -/
def defer (calls : List Event) : Proc Unit := fun s =>
  .ok () { s with defers := calls ++ s.defers }

/-! ## The list generator -/

/-- The callback `genWalkList` hands to the walker (main.go:122-129), with the
slice `glob` threaded through.  `none` is a panic: `info.IsDir()` on a nil
`info`.  Otherwise the result is the new `glob` and the returned error, which
is always nil.  The argument `v.err` is never read. -/
def walkFn (Match : String → String → Bool × Option String) (pattern : String)
    (glob : List String) (v : Visit) : Option (List String × Option String) :=
  match v.info with
  | none => none
  | some info =>
    if !info.IsDir then
      match Match pattern info.Name with
      | (matched, err) =>
        if matched && err.isNone then some (glob ++ [v.path], none)
        else some (glob, none)
    else some (glob, none)

/-- The walker `afero.Walk`, as far as `genWalkList` depends on it: it calls the
callback once per visit, in order; the first non-nil error the callback returns
ends the walk and is the walk's result; when the callback never returns an
error the walk returns nil.  `none` is a panic inside the callback. -/
def Walk {σ : Type} (fn : σ → Visit → Option (σ × Option String)) :
    List Visit → σ → Option (σ × Option String)
  | [], s => some (s, none)
  | v :: vs, s =>
    match fn s v with
    | none => none
    | some (s1, some err) => some (s1, some err)
    | some (s1, none) => Walk fn vs s1

/-- The loop of main.go:134-140 from index `i` on: one `WriteString` per
path; the first failed write prints a message and returns from `genWalkList`. -/
def writeLoop (e : Env) (w : String) : List String → Nat → Proc Unit
  | [], _ => pure ()
  | p :: rest, i => do
    match e.writeErr i with
    | some _ =>
      emit (.writeString w (p ++ " => " ++ p ++ "\n") false)
      println "[Error] Failed to write "
    | none =>
      emit (.writeString w (p ++ " => " ++ p ++ "\n") true)
      writeLoop e w rest (i + 1)

/-- The function `genWalkList` (main.go:119-141) on the sink `w`. -/
def genWalkList (f : Flags) (e : Env) (w : String) : Proc Unit := do
  emit (.walk ".")
  match Walk (walkFn e.Match f.patternFlag) e.visits [] with
  | none => nilDeref
  | some (glob, err) =>
    match err with
    | some err =>
      println ("[Error] Failed to walk files: " ++ err)
      osExit 1
    | none => writeLoop e w glob 0

/-! ## The editor -/

/-- The function `openEditor` (main.go:143-158) on the temporary file. -/
def openEditor (e : Env) (tmpFile : String) : Proc Unit := do
  emit (.editorStart tmpFile)
  match e.editorStart with
  | some err =>
    println ("[Error] Editor failed to start: " ++ err)
    osExit 1
  | none => pure ()
  emit .editorWait
  match e.editorWait with
  | some err =>
    println ("[Error] Editor closed with an error: " ++ err)
    osExit 1
  | none => pure ()

/-! ## The driver -/

/-- The loop of main.go:107-115 from index `i` on.  The `err` printed in the
first branch is the variable of main.go:71, which is nil once the parse has
succeeded, and `fmt.Println` prints a nil error as `<nil>`. -/
def reportLoop (renameMap : List RenameEntry) : List (Option String) → Nat → Proc Unit
  | [], _ => pure ()
  | ei :: rest, i => do
    match ei with
    | some d =>
      if h : renameMap.length ≤ i then
        println "Error: <nil>"
      else
        emit (.stdout ("Error '" ++ (renameMap.get ⟨i, Nat.lt_of_not_le h⟩).Old ++ "' => '"
          ++ (renameMap.get ⟨i, Nat.lt_of_not_le h⟩).New ++ "': " ++ d ++ "\n"))
    | none => pure ()
    reportLoop renameMap rest (i + 1)

/-- The function `main` (main.go:24-117), after `flag.Parse()`. -/
def main (f : Flags) (e : Env) : Proc Unit := do
  if f.genFlag ≠ "" then
    emit (.osCreate f.genFlag)
    match e.osCreate with
    | some err =>
      println ("[Error] Failed to write to generated mapping file: " ++ err)
      osExit 1
    | none => pure ()
    genWalkList f e f.genFlag
  else
    let mappingFile ←
      if f.fileFlag = "" then do
        emit .createTemp
        match e.createTemp with
        | .error err =>
          println ("[Error] Failed to create temporary file: " ++ err)
          osExit 1
        | .ok tmpFile =>
          defer [.close tmpFile, .remove tmpFile]
          genWalkList f e tmpFile
          openEditor e tmpFile
          emit (.seekStart tmpFile)
          match e.seek with
          | some err =>
            println ("[Error] Failed to seek to start: " ++ err)
            osExit 1
          | none => pure tmpFile
      else do
        emit (.osOpen f.fileFlag)
        match e.osOpen with
        | some err =>
          println ("[Error] Failed to read mapping file: " ++ err)
          osExit 1
        | none =>
          defer [.close f.fileFlag]
          pure f.fileFlag
    -- parse user rename map
    emit (.parseMap mappingFile)
    match e.parse with
    | .error err =>
      println ("[Error] Failed to parse map file: " ++ err)
      osExit 1
    | .ok renameMap =>
      if renameMap.length = 0 then
        println "No files to rename"
      else
        println "Renaming:"
        emitAll (renameMap.map fun i => .stdout ("- '" ++ i.Old ++ "' => '" ++ i.New ++ "'\n"))
        println ""
        -- possible ask user to continue
        if !f.yesFlag then
          emit (.stdout "Do you wish to rename these files? [Y/n] ")
          emit .readStdin
          match e.readLine with
          | .error err =>
            println ("[Error] Failed to read user question: " ++ err)
            osExit 1
          | .ok line =>
            let answer := e.ToLower (e.TrimSpace line)
            if answer = "" ∨ answer = "y" ∨ answer = "yes" then
              pure ()
            else
              println "Stopping here"
              osExit 0
        -- mass rename files
        emit (.massRename renameMap)
        reportLoop renameMap e.batch 0
        println "Finished successfully"

/-- How the process ended. -/
inductive Status where
  | returned
  | exited (code : Nat)
  | panicked
  deriving DecidableEq, Repr

/-- The exit status of the process: 0 when `main` returns, the argument of
`os.Exit`, and 2 after a panic. -/
def Status.exitCode : Status → Nat
  | .returned => 0
  | .exited code => code
  | .panicked => 2

/-- A finished run: everything that happened, and how it ended. -/
structure Run where
  trace : List Event
  status : Status
  deriving DecidableEq, Repr

/-- Close a computation into a run from the empty state: deferred calls run
when the computation returns or panics, and are skipped by `os.Exit`. -/
def finish (p : Proc Unit) : Run :=
  match p {} with
  | .ok _ s => ⟨s.trace ++ s.defers, .returned⟩
  | .exit code s => ⟨s.trace, .exited code⟩
  | .fault s => ⟨s.trace ++ s.defers, .panicked⟩

/-- A whole run of the program. -/
def run (f : Flags) (e : Env) : Run := finish (main f e)

/-- The text the run wrote successfully to the sink `w`. -/
def sinkText (w : String) : List Event → String
  | [] => ""
  | .writeString w1 s true :: rest => if w1 = w then s ++ sinkText w rest else sinkText w rest
  | _ :: rest => sinkText w rest

/-! ## The standard-library functions, for concrete runs

The theorems below hold for every `Env`, so for whatever `filepath.Match`,
`strings.TrimSpace` and `strings.ToLower` compute.  The definitions of this
section give them a concrete meaning for the example runs. -/

namespace GoLib

/-- Outcome of `matchChunk`: a malformed pattern, no match, or the rest of the name. -/
inductive ChunkRes where
  | bad
  | noMatch
  | rest (s : List Char)
  deriving DecidableEq, Repr

/-- Skip the leading stars of a pattern; the flag tells whether there was one. -/
def dropStars : List Char → Bool → Bool × List Char
  | '*' :: p, _ => dropStars p true
  | p, star => (star, p)

/-- The scan of `scanChunk` after the stars: the chunk runs up to the next star
outside a character class; a backslash takes the next character with it. -/
def scanBody : List Char → Bool → List Char × List Char
  | [], _ => ([], [])
  | ['\\'], _ => (['\\'], [])
  | '\\' :: c :: p, inrange => ('\\' :: c :: (scanBody p inrange).1, (scanBody p inrange).2)
  | '[' :: p, _ => ('[' :: (scanBody p true).1, (scanBody p true).2)
  | ']' :: p, _ => (']' :: (scanBody p false).1, (scanBody p false).2)
  | '*' :: p, inrange =>
    if inrange then ('*' :: (scanBody p inrange).1, (scanBody p inrange).2) else ([], '*' :: p)
  | c :: p, inrange => (c :: (scanBody p inrange).1, (scanBody p inrange).2)

/-- The function `scanChunk`: `(star, chunk, rest)`. -/
def scanChunk (pattern : List Char) : Bool × List Char × List Char :=
  ((dropStars pattern false).1, scanBody (dropStars pattern false).2 false)

/-- The function `getEsc`: one possibly escaped character of a character class;
`none` is `ErrBadPattern`. -/
def getEsc : List Char → Option (Char × List Char)
  | [] => none
  | '-' :: _ => none
  | ']' :: _ => none
  | ['\\'] => none
  | '\\' :: c :: rest => if rest = [] then none else some (c, rest)
  | c :: rest => if rest = [] then none else some (c, rest)

/-- The range loop of a character class in `matchChunk`: whether `r` is in one
of the ranges, and the chunk after the closing bracket; `none` is `ErrBadPattern`. -/
def classLoop : Nat → List Char → Char → Nat → Bool → Option (Bool × List Char)
  | 0, _, _, _, _ => none
  | fuel + 1, chunk, r, nrange, matched =>
    match chunk, decide (0 < nrange) with
    | ']' :: rest, true => some (matched, rest)
    | _, _ =>
      match getEsc chunk with
      | none => none
      | some (lo, '-' :: chunk1) =>
        match getEsc chunk1 with
        | none => none
        | some (hi, chunk2) =>
          classLoop fuel chunk2 r (nrange + 1) (matched || (decide (lo ≤ r) && decide (r ≤ hi)))
      | some (lo, chunk1) => classLoop fuel chunk1 r (nrange + 1) (matched || decide (lo = r))

/-- The function `matchChunk`: does the chunk match a beginning of `s`?  After a
mismatch (`failed`) the chunk is still read to its end, to find a malformed
pattern. -/
def matchChunk : Nat → List Char → List Char → Bool → ChunkRes
  | 0, _, _, _ => .bad
  | fuel + 1, chunk, s, failed0 =>
    match chunk with
    | [] => if failed0 then .noMatch else .rest s
    | c :: ch =>
      let failed := failed0 || s.isEmpty
      match c with
      | '[' =>
        match classLoop (ch.length + 1) (if ch.head? = some '^' then ch.tail else ch)
            (if failed then Char.ofNat 0 else s.headD (Char.ofNat 0)) 0 false with
        | none => .bad
        | some (m, ch2) =>
          matchChunk fuel ch2 (if failed then s else s.tail)
            (failed || (m == (ch.head? = some '^')))
      | '?' =>
        if failed then matchChunk fuel ch s true
        else matchChunk fuel ch s.tail (s.head? = some '/')
      | '\\' =>
        match ch with
        | [] => .bad
        | c2 :: ch2 =>
          if failed then matchChunk fuel ch2 s true
          else matchChunk fuel ch2 s.tail (s.head? ≠ some c2)
      | _ =>
        if failed then matchChunk fuel ch s true
        else matchChunk fuel ch s.tail (s.head? ≠ some c)

/-- The check `filepath.Match` makes before it answers "no match": is the rest of
the pattern well formed? -/
def restBad : Nat → List Char → Bool
  | 0, _ => false
  | fuel + 1, pattern =>
    if pattern = [] then false
    else
      match scanChunk pattern with
      | (_, chunk, rest) =>
        if matchChunk (chunk.length + 1) chunk [] false = .bad then true else restBad fuel rest

/-- The inner loop of `filepath.Match` for a chunk after a star: try the chunk at
`name[i+1:]` for each `i`, never skipping a separator.  `last` tells that the
pattern ends with this chunk. -/
def starLoop (chunk : List Char) (last : Bool) : List Char → Option ChunkRes
  | [] => none
  | c :: name =>
    if c = '/' then none
    else
      match matchChunk (chunk.length + 1) chunk name false with
      | .rest t => if last && t ≠ [] then starLoop chunk last name else some (.rest t)
      | .bad => some .bad
      | .noMatch => starLoop chunk last name

/-- The loop of `filepath.Match`. -/
def matchLoop : Nat → List Char → List Char → Bool × Option String
  | 0, _, _ => (false, none)
  | fuel + 1, pattern, name =>
    if pattern = [] then (name = [], none)
    else
      match scanChunk pattern with
      | (star, chunk, rest) =>
        if star && chunk = [] then (!name.contains '/', none)
        else
          let miss : Bool × Option String :=
            match (if star then starLoop chunk (rest = []) name else none) with
            | some (.rest t) => matchLoop fuel rest t
            | some .bad => (false, some "syntax error in pattern")
            | _ =>
              if restBad (rest.length + 1) rest then (false, some "syntax error in pattern")
              else (false, none)
          match matchChunk (chunk.length + 1) chunk name false with
          | .bad => (false, some "syntax error in pattern")
          | .rest t => if t = [] ∨ rest ≠ [] then matchLoop fuel rest t else miss
          | .noMatch => miss

/-- The function `filepath.Match` of the Go standard library with separator `/`,
on text of one-byte characters. -/
def Match (pattern name : String) : Bool × Option String :=
  matchLoop (pattern.length + 1) pattern.toList name.toList

/-- The predicate `unicode.IsSpace`. -/
def isSpace (c : Char) : Bool :=
  c = '\t' || c = '\n' || c.toNat = 0x0B || c.toNat = 0x0C || c = '\r' || c = ' '
    || c.toNat = 0x85 || c.toNat = 0xA0 || c.toNat = 0x1680
    || (0x2000 ≤ c.toNat && c.toNat ≤ 0x200A) || c.toNat = 0x2028 || c.toNat = 0x2029
    || c.toNat = 0x202F || c.toNat = 0x205F || c.toNat = 0x3000

/-- The function `strings.TrimSpace`. -/
def TrimSpace (s : String) : String :=
  String.mk ((s.toList.dropWhile isSpace).reverse.dropWhile isSpace).reverse

/-- The function `strings.ToLower` on the letters A to Z; other characters are
kept (for them this is `strings.ToLower` only when they have no lower-case form). -/
def ToLower (s : String) : String := String.mk (s.toList.map Char.toLower)

end GoLib

/-! ## What the specification says the generator selects -/

/-- The paths the specification asks for: those of the visited entries that are
not directories and whose base name matches the pattern without a match error,
in visit order. -/
def specPaths (Match : String → String → Bool × Option String) (pattern : String)
    (visits : List Visit) : List String :=
  visits.filterMap fun v =>
    match v.info with
    | some info =>
      if info.IsDir = false ∧ (Match pattern info.Name).1 = true ∧ (Match pattern info.Name).2 = none
      then some v.path else none
    | none => none

/-- The identity mapping line of a path. -/
def specLine (path : String) : String := path ++ " => " ++ path ++ "\n"

/-- Concatenation of texts, in order. -/
def concatText : List String → String
  | [] => ""
  | l :: ls => l ++ concatText ls

/-! ## Example runs -/

/-- An environment in which every step succeeds, over a directory that holds
`x.go` and `y.txt`; the mapping the user saves is the one line `x.go => x.go`,
the answer to the question is `" Yes "`, and the rename succeeds. -/
def goEnv : Env where
  osCreate := none
  createTemp := .ok "/tmp/1.mass-rename"
  visits := [⟨".", some ⟨".", true⟩, none⟩, ⟨"x.go", some ⟨"x.go", false⟩, none⟩,
    ⟨"y.txt", some ⟨"y.txt", false⟩, none⟩]
  Match := GoLib.Match
  writeErr := fun _ => none
  editorStart := none
  editorWait := none
  seek := none
  osOpen := none
  parse := .ok [⟨"x.go", "x.go"⟩]
  readLine := .ok " Yes \n"
  TrimSpace := GoLib.TrimSpace
  ToLower := GoLib.ToLower
  batch := [none]

/-- As `goEnv`, but the directory `sub` cannot be read: the walker visits it,
then hands its callback the error of reading it, and goes on with `x.go`. -/
def unreadableEnv : Env :=
  { goEnv with
    visits := [⟨".", some ⟨".", true⟩, none⟩, ⟨"sub", some ⟨"sub", true⟩, none⟩,
      ⟨"sub", some ⟨"sub", true⟩, some "open sub: permission denied"⟩,
      ⟨"x.go", some ⟨"x.go", false⟩, none⟩] }

/-- As `goEnv`, but the entry `gone` cannot be examined: the walker hands its
callback a nil info together with the error. -/
def vanishedEnv : Env :=
  { goEnv with
    visits := [⟨".", some ⟨".", true⟩, none⟩,
      ⟨"gone", none, some "lstat gone: no such file or directory"⟩,
      ⟨"x.go", some ⟨"x.go", false⟩, none⟩] }

/-- As `goEnv`, but every write to the sink fails; the mapping the user saves
is the one line `x.go => y.go`. -/
def fullDiskEnv : Env :=
  { goEnv with
    writeErr := fun _ => some "no space left on device"
    parse := .ok [⟨"x.go", "y.go"⟩] }

/-! ## Vocabulary for the statements about whole runs -/

/-- The state a computation leaves behind, however it ends. -/
def Res.st {α : Type} : Res α → St
  | .ok _ s => s
  | .exit _ s => s
  | .fault s => s

/-- Every step the computation `p` adds to the trace satisfies `P`, every call
it defers satisfies `Q`, and it removes nothing. -/
def Steps {α : Type} (P Q : Event → Prop) (p : Proc α) : Prop :=
  ∀ s, ∃ evs ds, (p s).st = ⟨s.trace ++ evs, ds ++ s.defers⟩
    ∧ (∀ ev ∈ evs, P ev) ∧ (∀ ev ∈ ds, Q ev)

/-- The mappings `MassRename` was invoked with during a run, in order. -/
def batchCalls : List Event → List (List RenameEntry)
  | [] => []
  | .massRename m :: rest => m :: batchCalls rest
  | _ :: rest => batchCalls rest

/-- The steps of generate-only mode: creating the output file, the walk, the
writes to the sink `w`, and printing. -/
def Event.isGenerateStep (w : String) : Event → Bool
  | .osCreate path => path = w
  | .walk _ => true
  | .writeString w1 _ _ => w1 = w
  | .stdout _ => true
  | _ => false

/-- The steps that come before the parse, and the deferred clean-up: everything
but parsing, reading standard input and the batch. -/
def Event.isSetupStep : Event → Bool
  | .parseMap _ => false
  | .readStdin => false
  | .massRename _ => false
  | _ => true

/-- The deferred clean-up calls. -/
def Event.isCleanup : Event → Bool
  | .close _ => true
  | .remove _ => true
  | _ => false

/-- The lines main.go:107-115 print for the results `errs` of a batch over
`renameMap`, from index `i` on (the steps of `reportLoop` as a list). -/
def reportEvents (renameMap : List RenameEntry) : List (Option String) → Nat → List Event
  | [], _ => []
  | none :: rest, i => reportEvents renameMap rest (i + 1)
  | some d :: rest, i =>
    (if h : renameMap.length ≤ i then Event.stdout "Error: <nil>\n"
      else .stdout ("Error '" ++ (renameMap.get ⟨i, Nat.lt_of_not_le h⟩).Old ++ "' => '"
        ++ (renameMap.get ⟨i, Nat.lt_of_not_le h⟩).New ++ "': " ++ d ++ "\n"))
      :: reportEvents renameMap rest (i + 1)

/-- The report the specification asks for: one line per failed entry, in order,
and none for an entry that succeeded. -/
def specReport : List RenameEntry → List (Option String) → List Event
  | r :: m, some d :: errs =>
    .stdout ("Error '" ++ r.Old ++ "' => '" ++ r.New ++ "': " ++ d ++ "\n") :: specReport m errs
  | _ :: m, none :: errs => specReport m errs
  | _, _ => []

/-- What `main` does with a non-empty mapping between the parse and the
confirmation (main.go:71-86): the parse, then the announcement of the renames. -/
def announce (mappingFile : String) (renameMap : List RenameEntry) : List Event :=
  .parseMap mappingFile :: .stdout "Renaming:\n"
    :: (renameMap.map fun i => .stdout ("- '" ++ i.Old ++ "' => '" ++ i.New ++ "'\n"))
    ++ [.stdout "\n"]

/-- The question of main.go:90 and the read of the answer. -/
def askUser : List Event :=
  [.stdout "Do you wish to rename these files? [Y/n] ", .readStdin]

/-- The answer accepts: its trimmed, lower-cased form is empty, `y` or `yes`
(main.go:96-97). -/
def Env.accepts (e : Env) (line : String) : Prop :=
  e.ToLower (e.TrimSpace line) = "" ∨ e.ToLower (e.TrimSpace line) = "y"
    ∨ e.ToLower (e.TrimSpace line) = "yes"

/-- The first half of `main` outside generate-only mode (main.go:37-68): obtain
the mapping file. -/
def obtainMapping (f : Flags) (e : Env) : Proc String :=
  if f.fileFlag = "" then do
    emit .createTemp
    match e.createTemp with
    | .error err =>
      println ("[Error] Failed to create temporary file: " ++ err)
      osExit 1
    | .ok tmpFile =>
      defer [.close tmpFile, .remove tmpFile]
      genWalkList f e tmpFile
      openEditor e tmpFile
      emit (.seekStart tmpFile)
      match e.seek with
      | some err =>
        println ("[Error] Failed to seek to start: " ++ err)
        osExit 1
      | none => pure tmpFile
  else do
    emit (.osOpen f.fileFlag)
    match e.osOpen with
    | some err =>
      println ("[Error] Failed to read mapping file: " ++ err)
      osExit 1
    | none =>
      defer [.close f.fileFlag]
      pure f.fileFlag

/-- The second half of `main` (main.go:70-116): parse, confirm, rename, report. -/
def processMapping (f : Flags) (e : Env) (mappingFile : String) : Proc Unit := do
  emit (.parseMap mappingFile)
  match e.parse with
  | .error err =>
    println ("[Error] Failed to parse map file: " ++ err)
    osExit 1
  | .ok renameMap =>
    if renameMap.length = 0 then
      println "No files to rename"
    else
      println "Renaming:"
      emitAll (renameMap.map fun i => .stdout ("- '" ++ i.Old ++ "' => '" ++ i.New ++ "'\n"))
      println ""
      if !f.yesFlag then
        emit (.stdout "Do you wish to rename these files? [Y/n] ")
        emit .readStdin
        match e.readLine with
        | .error err =>
          println ("[Error] Failed to read user question: " ++ err)
          osExit 1
        | .ok line =>
          let answer := e.ToLower (e.TrimSpace line)
          if answer = "" ∨ answer = "y" ∨ answer = "yes" then
            pure ()
          else
            println "Stopping here"
            osExit 0
      emit (.massRename renameMap)
      reportLoop renameMap e.batch 0
      println "Finished successfully"

/-! ## Basic facts about the process monad -/

@[simp] theorem bind_apply {α β : Type} (x : Proc α) (g : α → Proc β) (s : St) :
    (x >>= g) s = Proc.bind x g s := rfl

@[simp] theorem pure_apply {α : Type} (a : α) (s : St) :
    (pure a : Proc α) s = .ok a s := rfl

theorem Proc.bind_assoc {α β γ : Type} (x : Proc α) (g : α → Proc β) (h : β → Proc γ) :
    Proc.bind (Proc.bind x g) h = Proc.bind x fun a => Proc.bind (g a) h := by
  funext s
  unfold Proc.bind
  cases x s <;> rfl

theorem proc_bind_assoc {α β γ : Type} (x : Proc α) (g : α → Proc β) (h : β → Proc γ) :
    (x >>= g) >>= h = x >>= fun a => g a >>= h := Proc.bind_assoc x g h

theorem proc_pure_bind {α β : Type} (a : α) (g : α → Proc β) : (pure a >>= g) = g a := rfl

@[simp] theorem osExit_bind {α β : Type} (code : Nat) (g : α → Proc β) :
    (osExit code >>= g) = osExit code := rfl

@[simp] theorem nilDeref_bind {α β : Type} (g : α → Proc β) :
    (nilDeref >>= g) = nilDeref := rfl

/-- The second half of `main`, as it stands in `main`, is `processMapping`. -/
theorem processMapping_eq (f : Flags) (e : Env) (mappingFile : String) :
    processMapping f e mappingFile = (do
      emit (.parseMap mappingFile)
      match e.parse with
      | .error err =>
        println ("[Error] Failed to parse map file: " ++ err)
        osExit 1
      | .ok renameMap =>
        if renameMap.length = 0 then
          println "No files to rename"
        else
          println "Renaming:"
          emitAll (renameMap.map fun i => .stdout ("- '" ++ i.Old ++ "' => '" ++ i.New ++ "'\n"))
          println ""
          if (!f.yesFlag) = true then
            emit (.stdout "Do you wish to rename these files? [Y/n] ")
            emit .readStdin
            match e.readLine with
            | .error err =>
              println ("[Error] Failed to read user question: " ++ err)
              osExit 1
            | .ok line =>
              if e.ToLower (e.TrimSpace line) = "" ∨ e.ToLower (e.TrimSpace line) = "y"
                  ∨ e.ToLower (e.TrimSpace line) = "yes" then
                emit (.massRename renameMap)
                reportLoop renameMap e.batch 0
                println "Finished successfully"
              else
                println "Stopping here"
                osExit 0
          else
            emit (.massRename renameMap)
            reportLoop renameMap e.batch 0
            println "Finished successfully") := by
  unfold processMapping
  cases e.parse with
  | error err => rfl
  | ok renameMap =>
    cases f.yesFlag <;> cases e.readLine <;>
      simp only [proc_bind_assoc, osExit_bind, proc_pure_bind, Bool.not_true, Bool.not_false,
        Bool.false_eq_true, if_true, if_false]

/-- Outside generate-only mode `main` is its two halves in sequence. -/
theorem main_default (f : Flags) (e : Env) (hg : f.genFlag = "") :
    main f e = obtainMapping f e >>= processMapping f e := by
  unfold main obtainMapping
  rw [if_neg (by simpa using hg)]
  by_cases hf : f.fileFlag = ""
  · simp only [hf, if_true]
    cases e.createTemp <;> cases e.seek <;>
      simp only [proc_bind_assoc, osExit_bind, proc_pure_bind, processMapping_eq]
  · simp only [hf, if_false]
    cases e.osOpen <;>
      simp only [proc_bind_assoc, osExit_bind, proc_pure_bind, processMapping_eq]

/-- In generate-only mode `main` creates the file and, if that succeeds, runs the
generator on it. -/
theorem main_generate (f : Flags) (e : Env) (hg : f.genFlag ≠ "") :
    main f e = (emit (.osCreate f.genFlag) >>= fun _ =>
      (match e.osCreate with
        | some err =>
          println ("[Error] Failed to write to generated mapping file: " ++ err) >>= fun _ =>
          osExit 1
        | none => pure ()) >>= fun _ => genWalkList f e f.genFlag) := by
  unfold main
  rw [if_pos hg]
  cases e.osCreate <;> rfl

/-! ## Which steps a computation can take -/

theorem steps_mono {α : Type} {P Q P1 Q1 : Event → Prop} {p : Proc α} (h : Steps P Q p)
    (hP : ∀ ev, P ev → P1 ev) (hQ : ∀ ev, Q ev → Q1 ev) : Steps P1 Q1 p := fun s =>
  let ⟨evs, ds, h1, h2, h3⟩ := h s
  ⟨evs, ds, h1, fun ev hev => hP ev (h2 ev hev), fun ev hev => hQ ev (h3 ev hev)⟩

theorem steps_pure {α : Type} (P Q : Event → Prop) (a : α) : Steps P Q (pure a : Proc α) :=
  fun s => ⟨[], [], by simp [Res.st], by simp, by simp⟩

theorem steps_osExit {α : Type} (P Q : Event → Prop) (code : Nat) :
    Steps P Q (osExit code : Proc α) :=
  fun s => ⟨[], [], by simp [Res.st, MassRename.osExit], by simp, by simp⟩

theorem steps_nilDeref {α : Type} (P Q : Event → Prop) : Steps P Q (nilDeref : Proc α) :=
  fun s => ⟨[], [], by simp [Res.st, MassRename.nilDeref], by simp, by simp⟩

theorem steps_emitAll {P : Event → Prop} (Q : Event → Prop) {evs : List Event}
    (h : ∀ ev ∈ evs, P ev) : Steps P Q (emitAll evs) :=
  fun s => ⟨evs, [], by simp [Res.st, MassRename.emitAll], h, by simp⟩

theorem steps_emit {P : Event → Prop} (Q : Event → Prop) {ev : Event} (h : P ev) :
    Steps P Q (emit ev) :=
  fun s => ⟨[ev], [], by simp [Res.st, MassRename.emit], by simpa using h, by simp⟩

theorem steps_println {P : Event → Prop} (Q : Event → Prop) {text : String}
    (h : P (.stdout (text ++ "\n"))) : Steps P Q (println text) := steps_emit Q h

theorem steps_defer (P : Event → Prop) {Q : Event → Prop} {calls : List Event}
    (h : ∀ ev ∈ calls, Q ev) : Steps P Q (defer calls) :=
  fun s => ⟨[], calls, by simp [Res.st, MassRename.defer], by simp, h⟩

theorem steps_bind {α β : Type} {P Q : Event → Prop} {x : Proc α} {g : α → Proc β}
    (hx : Steps P Q x) (hg : ∀ a, Steps P Q (g a)) : Steps P Q (x >>= g) := by
  intro s
  obtain ⟨evs, ds, h1, h2, h3⟩ := hx s
  cases hxs : x s with
  | ok a s1 =>
    obtain ⟨evs1, ds1, k1, k2, k3⟩ := hg a s1
    rw [hxs] at h1
    simp only [Res.st] at h1
    subst h1
    refine ⟨evs ++ evs1, ds1 ++ ds, ?_, ?_, ?_⟩
    · simp only [bind_apply, Proc.bind, hxs, k1, List.append_assoc]
    · intro ev hev
      rcases List.mem_append.1 hev with h | h
      · exact h2 ev h
      · exact k2 ev h
    · intro ev hev
      rcases List.mem_append.1 hev with h | h
      · exact k3 ev h
      · exact h3 ev h
  | exit c s1 =>
    refine ⟨evs, ds, ?_, h2, h3⟩
    rw [hxs] at h1
    simpa only [bind_apply, Proc.bind, hxs] using h1
  | fault s1 =>
    refine ⟨evs, ds, ?_, h2, h3⟩
    rw [hxs] at h1
    simpa only [bind_apply, Proc.bind, hxs] using h1

/-- What a computation does from the empty state: its steps, the calls it
deferred, and how it left. -/
theorem steps_from_start {α : Type} {P Q : Event → Prop} {p : Proc α} (h : Steps P Q p) :
    ∃ evs ds, (∀ ev ∈ evs, P ev) ∧ (∀ ev ∈ ds, Q ev) ∧
      ((∃ a, p {} = .ok a ⟨evs, ds⟩) ∨ (∃ c, p {} = .exit c ⟨evs, ds⟩) ∨ p {} = .fault ⟨evs, ds⟩) := by
  obtain ⟨evs, ds, h1, h2, h3⟩ := h {}
  refine ⟨evs, ds, h2, h3, ?_⟩
  simp only [List.nil_append, List.append_nil] at h1
  cases hp : p {} with
  | ok a s1 => rw [hp] at h1; exact Or.inl ⟨a, by rw [← h1]; rfl⟩
  | exit c s1 => rw [hp] at h1; exact Or.inr (Or.inl ⟨c, by rw [← h1]; rfl⟩)
  | fault s1 => rw [hp] at h1; exact Or.inr (Or.inr (by rw [← h1]; rfl))

/-- Every step of a finished computation is one of its steps or a deferred call. -/
theorem steps_finish {P Q : Event → Prop} {p : Proc Unit} (h : Steps P Q p) :
    ∀ ev ∈ (finish p).trace, P ev ∨ Q ev := by
  obtain ⟨evs, ds, h2, h3, hp⟩ := steps_from_start h
  intro ev hev
  unfold MassRename.finish at hev
  rcases hp with ⟨a, hp⟩ | ⟨c, hp⟩ | hp <;> rw [hp] at hev <;>
    simp only [List.mem_append] at hev
  · exact hev.imp (h2 ev) (h3 ev)
  · exact Or.inl (h2 ev hev)
  · exact hev.imp (h2 ev) (h3 ev)

/-- The write loop only writes to its sink and prints. -/
theorem steps_writeLoop (e : Env) (w : String) :
    ∀ (glob : List String) (i : Nat),
      Steps (fun ev => ev.isGenerateStep w = true) (fun _ => False) (writeLoop e w glob i)
  | [], _ => steps_pure _ _ ()
  | p :: rest, i => by
    unfold MassRename.writeLoop
    cases e.writeErr i with
    | none =>
      exact steps_bind (steps_emit _ (by simp [Event.isGenerateStep]))
        (fun _ => steps_writeLoop e w rest (i + 1))
    | some err =>
      exact steps_bind (steps_emit _ (by simp [Event.isGenerateStep]))
        (fun _ => steps_println _ (by simp [Event.isGenerateStep]))

/-- The generator only walks, writes to its sink and prints. -/
theorem steps_genWalkList (f : Flags) (e : Env) (w : String) :
    Steps (fun ev => ev.isGenerateStep w = true) (fun _ => False) (genWalkList f e w) := by
  unfold MassRename.genWalkList
  refine steps_bind (steps_emit _ (by simp [Event.isGenerateStep])) (fun _ => ?_)
  cases Walk (walkFn e.Match f.patternFlag) e.visits [] with
  | none => exact steps_nilDeref _ _
  | some r =>
    rcases r with ⟨glob, _ | err⟩
    · exact steps_writeLoop e w glob 0
    · exact steps_bind (steps_println _ (by simp [Event.isGenerateStep]))
        (fun _ => steps_osExit _ _ 1)

/-- A step of the generator is a step that comes before the parse. -/
theorem isSetupStep_of_isGenerateStep (w : String) (ev : Event)
    (h : ev.isGenerateStep w = true) : ev.isSetupStep = true := by
  cases ev <;> simp_all [Event.isGenerateStep, Event.isSetupStep]

/-- The editor is started and waited for; nothing else happens but printing. -/
theorem steps_openEditor (e : Env) (tmpFile : String) :
    Steps (fun ev => ev.isSetupStep = true) (fun ev => ev.isCleanup = true)
      (openEditor e tmpFile) := by
  have hwait : ∀ y : Unit, Steps (fun ev => ev.isSetupStep = true)
      (fun ev => ev.isCleanup = true) ((fun _ => do
        MassRename.emit .editorWait
        match e.editorWait with
        | some err =>
          MassRename.println ("[Error] Editor closed with an error: " ++ err)
          MassRename.osExit 1
        | none => Pure.pure ()) y) := by
    intro _
    refine steps_bind (steps_emit _ rfl) (fun _ => ?_)
    cases e.editorWait with
    | none => exact steps_pure _ _ ()
    | some err => exact steps_bind (steps_println _ rfl) (fun _ => steps_osExit _ _ 1)
  unfold MassRename.openEditor
  refine steps_bind (steps_emit _ rfl) (fun _ => ?_)
  cases e.editorStart with
  | none => exact steps_bind (steps_pure _ _ ()) hwait
  | some err =>
    exact steps_bind (steps_println _ rfl) (fun _ => steps_bind (steps_osExit _ _ 1) hwait)

/-- Obtaining the mapping file never parses, never reads standard input and never
renames; what it defers is clean-up. -/
theorem steps_obtainMapping (f : Flags) (e : Env) :
    Steps (fun ev => ev.isSetupStep = true) (fun ev => ev.isCleanup = true)
      (obtainMapping f e) := by
  unfold MassRename.obtainMapping
  split
  · refine steps_bind (steps_emit _ rfl) (fun _ => ?_)
    cases e.createTemp with
    | error err => exact steps_bind (steps_println _ rfl) (fun _ => steps_osExit _ _ 1)
    | ok tmpFile =>
      refine steps_bind (steps_defer _ (by simp [Event.isCleanup])) (fun _ =>
        steps_bind (steps_mono (steps_genWalkList f e tmpFile)
          (isSetupStep_of_isGenerateStep tmpFile) (fun _ h => h.elim)) (fun _ =>
        steps_bind (steps_openEditor e tmpFile) (fun _ =>
        steps_bind (steps_emit _ rfl) (fun _ => ?_))))
      cases e.seek with
      | none => exact steps_pure _ _ _
      | some err => exact steps_bind (steps_println _ rfl) (fun _ => steps_osExit _ _ 1)
  · refine steps_bind (steps_emit _ rfl) (fun _ => ?_)
    cases e.osOpen with
    | none =>
      exact steps_bind (steps_defer _ (by simp [Event.isCleanup])) (fun _ => steps_pure _ _ _)
    | some err => exact steps_bind (steps_println _ rfl) (fun _ => steps_osExit _ _ 1)

/-- Steps before the parse hold no call of the batch. -/
theorem batchCalls_of_setup : ∀ (evs : List Event), (∀ ev ∈ evs, ev.isSetupStep = true) →
    batchCalls evs = []
  | [], _ => rfl
  | ev :: rest, h => by
    have h1 := h ev (List.mem_cons_self _ _)
    have h2 := batchCalls_of_setup rest (fun x hx => h x (List.mem_cons_of_mem _ hx))
    cases ev <;> simp_all [batchCalls, Event.isSetupStep]

theorem batchCalls_append (xs ys : List Event) :
    batchCalls (xs ++ ys) = batchCalls xs ++ batchCalls ys := by
  induction xs with
  | nil => rfl
  | cons ev rest ih => cases ev <;> simp [batchCalls, ih]

theorem isSetupStep_of_isCleanup (ev : Event) (h : ev.isCleanup = true) :
    ev.isSetupStep = true := by
  cases ev <;> simp_all [Event.isCleanup, Event.isSetupStep]

/-- The report loop prints its lines and returns. -/
theorem reportLoop_eq (m : List RenameEntry) : ∀ (errs : List (Option String)) (i : Nat) (s : St),
    reportLoop m errs i s = .ok () { s with trace := s.trace ++ reportEvents m errs i }
  | [], _, s => by simp [reportLoop, reportEvents]
  | none :: rest, i, s => by
    simp [reportLoop, reportEvents, Proc.bind, reportLoop_eq m rest (i + 1)]
  | some d :: rest, i, s => by
    by_cases h : m.length ≤ i <;>
      simp [reportLoop, reportEvents, Proc.bind, println, emit, h, reportLoop_eq m rest (i + 1)]

/-- The report lines are printed lines. -/
theorem reportEvents_setup (m : List RenameEntry) : ∀ (errs : List (Option String)) (i : Nat),
    ∀ ev ∈ reportEvents m errs i, ∃ text, ev = .stdout text
  | [], _ => by simp [reportEvents]
  | none :: rest, i => by
    simpa [reportEvents] using reportEvents_setup m rest (i + 1)
  | some d :: rest, i => by
    intro ev hev
    simp only [reportEvents, List.mem_cons] at hev
    rcases hev with h | h
    · by_cases hi : m.length ≤ i <;> simp [hi] at h <;> exact ⟨_, h⟩
    · exact reportEvents_setup m rest (i + 1) ev h

theorem get_after_append (r : RenameEntry) (rest : List RenameEntry) :
    ∀ (before : List RenameEntry) (h : before.length < (before ++ r :: rest).length),
      (before ++ r :: rest).get ⟨before.length, h⟩ = r
  | [], _ => rfl
  | _ :: bs, h => by
    simpa using get_after_append r rest bs (by simp)

/-- When the batch returns one result per entry, the loop prints the report the
specification asks for. -/
theorem reportEvents_eq_specReport : ∀ (errs : List (Option String))
    (before rest : List RenameEntry), errs.length = rest.length →
    reportEvents (before ++ rest) errs before.length = specReport rest errs
  | [], _, rest, _ => by cases rest <;> simp [reportEvents, specReport]
  | _ :: _, _, [], h => by simp at h
  | none :: errs, before, r :: rest, h => by
    have ih := reportEvents_eq_specReport errs (before ++ [r]) rest (by simpa using h)
    simp only [List.append_assoc, List.singleton_append, List.length_append,
      List.length_singleton] at ih
    simp [reportEvents, specReport, ih]
  | some d :: errs, before, r :: rest, h => by
    have ih := reportEvents_eq_specReport errs (before ++ [r]) rest (by simpa using h)
    simp only [List.append_assoc, List.singleton_append, List.length_append,
      List.length_singleton] at ih
    have hlt : ¬ (before ++ r :: rest).length ≤ before.length := by simp
    simp only [reportEvents, specReport, ih, dif_neg hlt, get_after_append]

/-- The callback never returns an error, so neither does the walk. -/
theorem Walk_walkFn_no_error (M : String → String → Bool × Option String) (pattern : String) :
    ∀ (visits : List Visit) (glob : List String),
      Walk (walkFn M pattern) visits glob = none
        ∨ ∃ glob1, Walk (walkFn M pattern) visits glob = some (glob1, none)
  | [], glob => Or.inr ⟨glob, rfl⟩
  | ⟨path, none, err⟩ :: vs, glob => Or.inl rfl
  | ⟨path, some info, err⟩ :: vs, glob => by
    have hfn : walkFn M pattern glob ⟨path, some info, err⟩
        = some (glob ++ specPaths M pattern [⟨path, some info, err⟩], none) := by
      rcases hm : M pattern info.Name with ⟨matched, merr⟩
      cases hd : info.IsDir <;> cases matched <;> cases merr <;>
        simp [walkFn, specPaths, hm, hd]
    rw [Walk, hfn]
    exact Walk_walkFn_no_error M pattern vs _

/-- When every match reports an error the walk collects nothing. -/
theorem Walk_walkFn_match_error (M : String → String → Bool × Option String)
    (pattern : String) (hM : ∀ name, (M pattern name).2 ≠ none) :
    ∀ (visits : List Visit) (glob : List String),
      Walk (walkFn M pattern) visits glob = none
        ∨ Walk (walkFn M pattern) visits glob = some (glob, none)
  | [], _ => Or.inr rfl
  | ⟨path, none, err⟩ :: vs, glob => Or.inl rfl
  | ⟨path, some info, err⟩ :: vs, glob => by
    have hfn : walkFn M pattern glob ⟨path, some info, err⟩ = some (glob, none) := by
      have h := hM info.Name
      rcases hm : M pattern info.Name with ⟨matched, merr⟩
      rw [hm] at h
      cases merr with
      | none => exact absurd rfl h
      | some d => cases hd : info.IsDir <;> simp [walkFn, hm, hd]
    rw [Walk, hfn]
    exact Walk_walkFn_match_error M pattern hM vs glob

/-- The write loop never exits the process and never panics. -/
theorem writeLoop_returns (e : Env) (w : String) :
    ∀ (glob : List String) (i : Nat) (s : St), ∃ s1, writeLoop e w glob i s = .ok () s1
  | [], _, s => ⟨s, rfl⟩
  | p :: rest, i, s => by
    cases h : e.writeErr i with
    | none =>
      obtain ⟨s1, hs1⟩ := writeLoop_returns e w rest (i + 1)
        { s with trace := s.trace ++ [.writeString w (p ++ " => " ++ p ++ "\n") true] }
      exact ⟨s1, by simp [writeLoop, h, Proc.bind, emit, hs1]⟩
    | some err =>
      exact ⟨{ s with trace := s.trace ++ [.writeString w (p ++ " => " ++ p ++ "\n") false,
        .stdout "[Error] Failed to write \n"] }, by
          simp [writeLoop, h, Proc.bind, emit, println]⟩

/-- The callback never returns an error and never panics on a present info. -/
theorem walkFn_some (M : String → String → Bool × Option String) (pattern : String)
    (glob : List String) (path : String) (info : FileInfo) (err : Option String) :
    walkFn M pattern glob ⟨path, some info, err⟩ =
      some (glob ++ specPaths M pattern [⟨path, some info, err⟩], none) := by
  rcases hm : M pattern info.Name with ⟨matched, merr⟩
  cases hd : info.IsDir <;> cases matched <;> cases merr <;>
    simp [walkFn, specPaths, hm, hd]

/-- Over visits that all carry their info the walk collects the specified paths. -/
theorem Walk_walkFn_present (M : String → String → Bool × Option String) (pattern : String) :
    ∀ (visits : List Visit) (glob : List String), (∀ v ∈ visits, v.info ≠ none) →
      Walk (walkFn M pattern) visits glob = some (glob ++ specPaths M pattern visits, none)
  | [], glob, _ => by simp [Walk, specPaths]
  | ⟨path, none, err⟩ :: vs, glob, h => by
    exact absurd rfl (h ⟨path, none, err⟩ (List.mem_cons_self _ _))
  | ⟨path, some info, err⟩ :: vs, glob, h => by
    have ih := Walk_walkFn_present M pattern vs
      (glob ++ specPaths M pattern [⟨path, some info, err⟩])
      (fun v hv => h v (List.mem_cons_of_mem _ hv))
    have hsplit : specPaths M pattern (⟨path, some info, err⟩ :: vs)
        = specPaths M pattern [⟨path, some info, err⟩] ++ specPaths M pattern vs := by
      unfold specPaths
      rw [← List.filterMap_append]
      rfl
    rw [Walk, walkFn_some]
    simp only [ih, hsplit, List.append_assoc]

/-- When no write fails the loop writes one line per path and returns. -/
theorem writeLoop_ok (e : Env) (w : String) (hw : ∀ i, e.writeErr i = none) :
    ∀ (glob : List String) (i : Nat) (s : St),
      writeLoop e w glob i s
        = .ok () { s with trace := s.trace ++ glob.map fun p => .writeString w (specLine p) true }
  | [], _, s => by simp [writeLoop]
  | p :: rest, i, s => by
    simp [writeLoop, hw i, Proc.bind, emit, specLine, writeLoop_ok e w hw rest (i + 1)]

/-- A matcher that reports an error for every name selects nothing. -/
theorem specPaths_of_match_error (M : String → String → Bool × Option String) (pattern : String)
    (hM : ∀ name, (M pattern name).2 ≠ none) (visits : List Visit) :
    specPaths M pattern visits = [] := by
  unfold specPaths
  rw [List.filterMap_eq_nil_iff]
  intro v _
  cases hv : v.info with
  | none => rfl
  | some info => simp [hM info.Name]

/-- The pattern `[` is malformed whatever the name. -/
theorem GoLib.Match_open_bracket (name : String) :
    GoLib.Match "[" name = (false, some "syntax error in pattern") := by
  simp [GoLib.Match, GoLib.matchLoop, GoLib.scanChunk, GoLib.dropStars, GoLib.scanBody,
    GoLib.matchChunk, GoLib.classLoop, GoLib.getEsc]

/-- The text in the sink after a run of successful writes. -/
theorem sinkText_writes (w : String) (lines : List String) :
    sinkText w (lines.map fun l => .writeString w l true) = concatText lines := by
  induction lines with
  | nil => rfl
  | cons l ls ih => simp [sinkText, ih, concatText]

/-! ## The second half of `main`, case by case -/

theorem processMapping_parse_error (f : Flags) (e : Env) (file err : String) (s : St)
    (hp : e.parse = .error err) :
    processMapping f e file s = .exit 1 { s with trace := s.trace ++
      [.parseMap file, .stdout ("[Error] Failed to parse map file: " ++ err ++ "\n")] } := by
  simp [processMapping, Proc.bind, emit, println, osExit, hp]

theorem processMapping_empty (f : Flags) (e : Env) (file : String) (s : St)
    (hp : e.parse = .ok []) :
    processMapping f e file s = .ok () { s with trace := s.trace ++
      [.parseMap file, .stdout "No files to rename\n"] } := by
  simp [processMapping, Proc.bind, emit, println, hp]

theorem processMapping_yes (f : Flags) (e : Env) (file : String) (s : St)
    (m : List RenameEntry) (hp : e.parse = .ok m) (hne : m ≠ []) (hy : f.yesFlag = true) :
    processMapping f e file s = .ok () { s with trace := s.trace ++ (announce file m
      ++ .massRename m :: (reportEvents m e.batch 0 ++ [.stdout "Finished successfully\n"])) } := by
  simp [processMapping, Proc.bind, emit, println, emitAll, hp, hne, hy, announce,
    reportLoop_eq]

theorem processMapping_read_error (f : Flags) (e : Env) (file err : String) (s : St)
    (m : List RenameEntry) (hp : e.parse = .ok m) (hne : m ≠ []) (hy : f.yesFlag = false)
    (hr : e.readLine = .error err) :
    processMapping f e file s = .exit 1 { s with trace := s.trace ++ (announce file m
      ++ askUser ++ [.stdout ("[Error] Failed to read user question: " ++ err ++ "\n")]) } := by
  simp [processMapping, Proc.bind, emit, println, emitAll, osExit, hp, hne, hy, hr, announce,
    askUser]

theorem processMapping_accept (f : Flags) (e : Env) (file line : String) (s : St)
    (m : List RenameEntry) (hp : e.parse = .ok m) (hne : m ≠ []) (hy : f.yesFlag = false)
    (hr : e.readLine = .ok line) (ha : e.accepts line) :
    processMapping f e file s = .ok () { s with trace := s.trace ++ (announce file m
      ++ askUser ++ .massRename m
        :: (reportEvents m e.batch 0 ++ [.stdout "Finished successfully\n"])) } := by
  unfold Env.accepts at ha
  simp [processMapping, Proc.bind, emit, println, emitAll, hp, hne, hy, hr, ha, announce,
    askUser, reportLoop_eq]

theorem processMapping_decline (f : Flags) (e : Env) (file line : String) (s : St)
    (m : List RenameEntry) (hp : e.parse = .ok m) (hne : m ≠ []) (hy : f.yesFlag = false)
    (hr : e.readLine = .ok line) (ha : ¬ e.accepts line) :
    processMapping f e file s = .exit 0 { s with trace := s.trace ++ (announce file m
      ++ askUser ++ [.stdout "Stopping here\n"]) } := by
  unfold Env.accepts at ha
  simp [processMapping, Proc.bind, emit, println, emitAll, osExit, hp, hne, hy, hr, ha,
    announce, askUser]

/-- In generate-only mode `main` only creates the file, walks, writes to it and
prints, and defers nothing. -/
theorem steps_main_generate (f : Flags) (e : Env) (hg : f.genFlag ≠ "") :
    Steps (fun ev => ev.isGenerateStep f.genFlag = true) (fun _ => False) (main f e) := by
  rw [MassRename.main_generate f e hg]
  refine steps_bind (steps_emit _ (by simp [Event.isGenerateStep])) (fun _ =>
    steps_bind ?_ (fun _ => steps_genWalkList f e f.genFlag))
  cases e.osCreate with
  | none => exact steps_pure _ _ ()
  | some err =>
    exact steps_bind (steps_println _ (by simp [Event.isGenerateStep]))
      (fun _ => steps_osExit _ _ 1)

theorem run_of_ok (f : Flags) (e : Env) (s : St) (h : main f e {} = .ok () s) :
    run f e = ⟨s.trace ++ s.defers, .returned⟩ := by
  simp [run, finish, h]

theorem run_of_exit (f : Flags) (e : Env) (code : Nat) (s : St)
    (h : main f e {} = .exit code s) : run f e = ⟨s.trace, .exited code⟩ := by
  simp [run, finish, h]

theorem mem_batchCalls (m : List RenameEntry) : ∀ (evs : List Event),
    Event.massRename m ∈ evs ↔ m ∈ batchCalls evs
  | [] => by simp [batchCalls]
  | ev :: rest => by
    have ih := mem_batchCalls m rest
    cases ev <;> simp [batchCalls, ih]

theorem batchCalls_of_stdout : ∀ (evs : List Event), (∀ ev ∈ evs, ∃ text, ev = .stdout text) →
    batchCalls evs = []
  | [], _ => rfl
  | ev :: rest, h => by
    obtain ⟨text, rfl⟩ := h ev (List.mem_cons_self _ _)
    simpa [batchCalls] using
      batchCalls_of_stdout rest (fun x hx => h x (List.mem_cons_of_mem _ hx))

theorem batchCalls_announce (file : String) (m : List RenameEntry) :
    batchCalls (announce file m) = [] := by
  have h : ∀ ev ∈ (m.map fun i => Event.stdout ("- '" ++ i.Old ++ "' => '" ++ i.New ++ "'\n"))
      ++ [Event.stdout "\n"], ∃ text, ev = .stdout text := by
    intro ev hev
    simp only [List.mem_append, List.mem_map, List.mem_singleton] at hev
    rcases hev with ⟨a, _, rfl⟩ | rfl <;> exact ⟨_, rfl⟩
  simpa [announce, batchCalls] using batchCalls_of_stdout _ h

theorem batchCalls_massRename (m : List RenameEntry) (rest : List Event) :
    batchCalls (.massRename m :: rest) = m :: batchCalls rest := rfl

theorem batchCalls_stdout (text : String) (rest : List Event) :
    batchCalls (.stdout text :: rest) = batchCalls rest := rfl

theorem batchCalls_nil : batchCalls [] = [] := rfl

theorem batchCalls_parseMap (file : String) (rest : List Event) :
    batchCalls (.parseMap file :: rest) = batchCalls rest := rfl

theorem batchCalls_askUser : batchCalls askUser = [] := rfl

theorem batchCalls_report (m : List RenameEntry) (errs : List (Option String)) (i : Nat) :
    batchCalls (reportEvents m errs i) = [] :=
  batchCalls_of_stdout _ (reportEvents_setup m errs i)

theorem batchCalls_cleanup (ds : List Event) (h : ∀ ev ∈ ds, ev.isCleanup = true) :
    batchCalls ds = [] :=
  batchCalls_of_setup ds (fun ev hev => isSetupStep_of_isCleanup ev (h ev hev))

/-- A run either reaches the second half of `main`, after steps that all come
before the parse, or consists of such steps only. -/
theorem run_cases (f : Flags) (e : Env) :
    (∃ evs ds file, (∀ ev ∈ evs, ev.isSetupStep = true) ∧ (∀ ev ∈ ds, ev.isCleanup = true)
        ∧ main f e {} = processMapping f e file ⟨evs, ds⟩)
      ∨ (∀ ev ∈ (run f e).trace, ev.isSetupStep = true) := by
  by_cases hg : f.genFlag = ""
  · obtain ⟨evs, ds, h2, h3, hp⟩ := steps_from_start (steps_obtainMapping f e)
    rcases hp with ⟨file, hp⟩ | ⟨c, hp⟩ | hp
    · exact Or.inl ⟨evs, ds, file, h2, h3, by
        rw [main_default f e hg, bind_apply, Proc.bind, hp]⟩
    · right
      have hm : main f e {} = .exit c ⟨evs, ds⟩ := by
        rw [main_default f e hg, bind_apply, Proc.bind, hp]
      simpa [run, finish, hm] using h2
    · right
      have hm : main f e {} = .fault ⟨evs, ds⟩ := by
        rw [main_default f e hg, bind_apply, Proc.bind, hp]
      intro ev hev
      simp only [run, finish, hm, List.mem_append] at hev
      rcases hev with h | h
      · exact h2 ev h
      · exact isSetupStep_of_isCleanup ev (h3 ev h)
  · right
    intro ev hev
    rcases steps_finish (steps_main_generate f e hg) ev hev with h | h
    · exact isSetupStep_of_isGenerateStep _ ev h
    · exact h.elim

/-- A run in which `MassRename` is invoked with `m` parsed `m`, non-empty, and
after the call it only reports, prints the last line, runs the deferred calls
and returns. -/
theorem batch_reached (f : Flags) (e : Env) (m : List RenameEntry)
    (hbatch : Event.massRename m ∈ (run f e).trace) :
    e.parse = .ok m ∧ m ≠ [] ∧ ∃ before cleanup, batchCalls before = []
      ∧ (∀ ev ∈ cleanup, ev.isCleanup = true)
      ∧ run f e = ⟨before ++ .massRename m
          :: (reportEvents m e.batch 0 ++ .stdout "Finished successfully\n" :: cleanup),
          .returned⟩ := by
  rcases run_cases f e with ⟨evs, ds, file, h2, h3, hmain⟩ | hsetup
  · have hb := (mem_batchCalls m _).1 hbatch
    have hevs := batchCalls_of_setup evs h2
    have hds := batchCalls_cleanup ds h3
    cases hp : e.parse with
    | error err =>
      rw [processMapping_parse_error f e file err _ hp] at hmain
      rw [run_of_exit f e _ _ hmain] at hb
      simp [batchCalls_append, batchCalls_parseMap, batchCalls_stdout, batchCalls_nil, hevs]
        at hb
    | ok m1 =>
      by_cases hne : m1 = []
      · subst hne
        rw [processMapping_empty f e file _ hp] at hmain
        rw [run_of_ok f e _ hmain] at hb
        simp [batchCalls_append, batchCalls_parseMap, batchCalls_stdout, batchCalls_nil, hevs,
          hds] at hb
      · cases hy : f.yesFlag with
        | true =>
          rw [processMapping_yes f e file _ m1 hp hne hy] at hmain
          have hrun := run_of_ok f e _ hmain
          rw [hrun] at hb
          simp only [batchCalls_append, batchCalls_massRename, batchCalls_stdout,
            batchCalls_nil, batchCalls_announce, batchCalls_report, hevs, hds, List.nil_append,
            List.append_nil, List.mem_singleton] at hb
          subst hb
          refine ⟨rfl, hne, evs ++ announce file m, ds, ?_, h3, ?_⟩
          · rw [batchCalls_append, hevs, batchCalls_announce]
            rfl
          · rw [hrun]
            simp
        | false =>
          cases hr : e.readLine with
          | error err =>
            rw [processMapping_read_error f e file err _ m1 hp hne hy hr] at hmain
            rw [run_of_exit f e _ _ hmain] at hb
            simp [batchCalls_append, batchCalls_stdout, batchCalls_nil, batchCalls_announce,
              batchCalls_askUser, hevs] at hb
          | ok line =>
            by_cases ha : e.accepts line
            · rw [processMapping_accept f e file line _ m1 hp hne hy hr ha] at hmain
              have hrun := run_of_ok f e _ hmain
              rw [hrun] at hb
              simp only [batchCalls_append, batchCalls_massRename, batchCalls_stdout,
                batchCalls_nil, batchCalls_announce, batchCalls_report, batchCalls_askUser, hevs,
                hds, List.nil_append, List.append_nil, List.mem_singleton] at hb
              subst hb
              refine ⟨rfl, hne, evs ++ (announce file m ++ askUser), ds, ?_, h3, ?_⟩
              · rw [batchCalls_append, batchCalls_append, hevs, batchCalls_announce,
                  batchCalls_askUser]
                rfl
              · rw [hrun]
                simp
            · rw [processMapping_decline f e file line _ m1 hp hne hy hr ha] at hmain
              rw [run_of_exit f e _ _ hmain] at hb
              simp [batchCalls_append, batchCalls_stdout, batchCalls_nil, batchCalls_announce,
                batchCalls_askUser, hevs] at hb
  · exact absurd (hsetup _ hbatch) (by simp [Event.isSetupStep])

/-! ## The list generator -/

/-- Over visits that all carry their info the walk of `genWalkList` ends without
an error, with the specified paths. -/
theorem genWalkList_run (f : Flags) (e : Env) (w : String)
    (hinfo : ∀ v ∈ e.visits, v.info ≠ none) :
    Walk (walkFn e.Match f.patternFlag) e.visits []
        = some (specPaths e.Match f.patternFlag e.visits, none)
      ∧ ∀ s, genWalkList f e w s
        = writeLoop e w (specPaths e.Match f.patternFlag e.visits) 0
            { s with trace := s.trace ++ [.walk "."] } := by
  have h := Walk_walkFn_present e.Match f.patternFlag e.visits [] hinfo
  simp only [List.nil_append] at h
  exact ⟨h, fun s => by simp [genWalkList, Proc.bind, emit, h]⟩

/-- **C1.** Over a tree given as the sequence of (path, info) entries the walker
visits, and when no write fails, `genWalkList` walks, then writes exactly one
line `path => path` for each visited entry that is not a directory and whose
base name matches the pattern without a match error, in visit order, and
returns; the sink holds exactly the concatenation of these lines. -/
theorem genWalkList_output (f : Flags) (e : Env) (w : String)
    (hinfo : ∀ v ∈ e.visits, v.info ≠ none) (hwrite : ∀ i, e.writeErr i = none) :
    finish (genWalkList f e w)
        = ⟨.walk "." :: (specPaths e.Match f.patternFlag e.visits).map
            (fun p => .writeString w (p ++ " => " ++ p ++ "\n") true), .returned⟩
      ∧ sinkText w (finish (genWalkList f e w)).trace
        = concatText ((specPaths e.Match f.patternFlag e.visits).map
            fun p => p ++ " => " ++ p ++ "\n") := by
  have hrun : finish (genWalkList f e w)
      = ⟨.walk "." :: (specPaths e.Match f.patternFlag e.visits).map
          (fun p => .writeString w (specLine p) true), .returned⟩ := by
    simp [finish, genWalkList, Proc.bind, emit,
      Walk_walkFn_present e.Match f.patternFlag e.visits [] hinfo, writeLoop_ok e w hwrite]
  refine ⟨hrun, ?_⟩
  rw [hrun]
  have h := sinkText_writes w ((specPaths e.Match f.patternFlag e.visits).map specLine)
  simp only [List.map_map] at h
  simpa [sinkText, specLine, Function.comp_def] using h

/-- A directory with `x.go` and `y.txt` and the pattern `*.go`: the sink receives
the one line `x.go => x.go`. -/
theorem genWalkList_output_witness :
    sinkText "list.txt" (finish (genWalkList ⟨"", "", "*.go", false⟩ goEnv "list.txt")).trace
      = "x.go => x.go\n" := by
  rw [(genWalkList_output ⟨"", "", "*.go", false⟩ goEnv "list.txt" (by decide) (fun _ => rfl)).2]
  decide

/-- **C10.** The callback is fault-free exactly when the info is present: on a
present info it returns a nil error whatever the error argument is, on an absent
info it panics, and in neither case does the error argument change the outcome. -/
theorem walkFn_faults_iff_info_absent (M : String → String → Bool × Option String)
    (pattern : String) (glob : List String) :
    (∀ path info err, ∃ glob1,
        walkFn M pattern glob ⟨path, some info, err⟩ = some (glob1, none))
      ∧ (∀ path err, walkFn M pattern glob ⟨path, none, err⟩ = none)
      ∧ (∀ v, (walkFn M pattern glob v).isSome = v.info.isSome)
      ∧ (∀ path info err1 err2,
        walkFn M pattern glob ⟨path, info, err1⟩ = walkFn M pattern glob ⟨path, info, err2⟩) := by
  refine ⟨fun path info err => ⟨_, walkFn_some M pattern glob path info err⟩,
    fun _ _ => rfl, ?_, fun _ _ _ _ => rfl⟩
  rintro ⟨path, info, err⟩
  cases info with
  | none => rfl
  | some info => rw [walkFn_some]; rfl

/-- **C8.** A match error is swallowed per entry: for a visited non-directory
entry whose match reports an error the callback leaves `glob` as it is and
returns nil, so the walk goes on with the remaining entries; hence with a pattern
whose every match reports an error the generator writes nothing and prints
nothing, and over entries that all carry their info it returns normally. -/
theorem match_error_swallowed (f : Flags) (e : Env) (w : String) :
    (∀ glob path info err, info.IsDir = false → (e.Match f.patternFlag info.Name).2 ≠ none →
        walkFn e.Match f.patternFlag glob ⟨path, some info, err⟩ = some (glob, none)
          ∧ ∀ rest, Walk (walkFn e.Match f.patternFlag) (⟨path, some info, err⟩ :: rest) glob
              = Walk (walkFn e.Match f.patternFlag) rest glob)
      ∧ ((∀ name, (e.Match f.patternFlag name).2 ≠ none) →
          (finish (genWalkList f e w)).trace = [.walk "."]
            ∧ ((∀ v ∈ e.visits, v.info ≠ none) →
              finish (genWalkList f e w) = ⟨[.walk "."], .returned⟩)) := by
  constructor
  · intro glob path info err hd hm
    have hfn : walkFn e.Match f.patternFlag glob ⟨path, some info, err⟩ = some (glob, none) := by
      rcases hM : e.Match f.patternFlag info.Name with ⟨matched, merr⟩
      rw [hM] at hm
      cases merr with
      | none => exact absurd rfl hm
      | some d => simp [walkFn, hd, hM]
    exact ⟨hfn, fun rest => by rw [Walk, hfn]⟩
  · intro herr
    have hwalk := Walk_walkFn_match_error e.Match f.patternFlag herr e.visits []
    constructor
    · rcases hwalk with h | h <;>
        simp [finish, genWalkList, Proc.bind, emit, nilDeref, h, writeLoop]
    · intro hinfo
      have h := (genWalkList_run f e w hinfo).1
      rw [specPaths_of_match_error e.Match f.patternFlag herr] at h
      simp [finish, genWalkList, Proc.bind, emit, h, writeLoop]

/-- With the malformed pattern `[` the generator writes nothing over a directory
that holds `x.go` and `y.txt`, and the entry `x.go` leaves the list empty. -/
theorem match_error_swallowed_witness :
    walkFn GoLib.Match "[" [] ⟨"x.go", some ⟨"x.go", false⟩, none⟩ = some ([], none)
      ∧ finish (genWalkList ⟨"", "", "[", false⟩ goEnv "list.txt") = ⟨[.walk "."], .returned⟩ :=
  ⟨((match_error_swallowed ⟨"", "", "[", false⟩ goEnv "list.txt").1 [] "x.go" ⟨"x.go", false⟩
      none rfl (by
        show (GoLib.Match "[" "x.go").2 ≠ none
        rw [GoLib.Match_open_bracket]
        decide)).1,
    ((match_error_swallowed ⟨"", "", "[", false⟩ goEnv "list.txt").2 (fun name => by
        show (GoLib.Match "[" name).2 ≠ none
        rw [GoLib.Match_open_bracket]
        decide)).2 (by decide)⟩

/-! ## The driver -/

/-- **C7.** Generate-only mode: when `-g` is given, whatever the other flags
are, `main` is exactly "create the file, then the generator on that file" once
the file is created; every step of the run is the creation of that file, the
walk, a write to that file or a printed line, so the run never opens the `-f`
file, never starts or waits for the editor, never parses a mapping, never reads
standard input and never invokes `MassRename`. -/
theorem generate_only_mode (f : Flags) (e : Env) (hg : f.genFlag ≠ "") :
    (e.osCreate = none →
        main f e = (emit (.osCreate f.genFlag) >>= fun _ => genWalkList f e f.genFlag))
      ∧ (∀ ev ∈ (run f e).trace, ev.isGenerateStep f.genFlag = true)
      ∧ (∀ path, Event.osOpen path ∉ (run f e).trace)
      ∧ (∀ file, Event.editorStart file ∉ (run f e).trace)
      ∧ Event.editorWait ∉ (run f e).trace
      ∧ (∀ file, Event.parseMap file ∉ (run f e).trace)
      ∧ Event.readStdin ∉ (run f e).trace
      ∧ (∀ m, Event.massRename m ∉ (run f e).trace) := by
  have hall : ∀ ev ∈ (run f e).trace, ev.isGenerateStep f.genFlag = true := by
    intro ev hev
    rcases steps_finish (steps_main_generate f e hg) ev hev with h | h
    · exact h
    · exact h.elim
  refine ⟨fun hc => ?_, hall, fun path h => ?_, fun file h => ?_, fun h => ?_,
    fun file h => ?_, fun h => ?_, fun m h => ?_⟩
  · rw [main_generate f e hg, hc]
    rfl
  all_goals exact absurd (hall _ h) (by simp [Event.isGenerateStep])

/-- With `-g list.txt`, also given `-f old.map` and `-y`, over a directory that
holds `x.go` and `y.txt`: the run creates `list.txt`, walks, writes the one line
and returns, and it does not invoke `MassRename`. -/
theorem generate_only_mode_witness :
    run ⟨"old.map", "list.txt", "*.go", true⟩ goEnv
        = ⟨[.osCreate "list.txt", .walk ".", .writeString "list.txt" "x.go => x.go\n" true],
            .returned⟩
      ∧ main ⟨"old.map", "list.txt", "*.go", true⟩ goEnv
        = (emit (.osCreate "list.txt") >>= fun _ =>
            genWalkList ⟨"old.map", "list.txt", "*.go", true⟩ goEnv "list.txt")
      ∧ ∀ m, Event.massRename m ∉ (run ⟨"old.map", "list.txt", "*.go", true⟩ goEnv).trace :=
  ⟨by decide,
    (generate_only_mode ⟨"old.map", "list.txt", "*.go", true⟩ goEnv (by decide)).1 rfl,
    (generate_only_mode ⟨"old.map", "list.txt", "*.go", true⟩ goEnv (by decide)).2.2.2.2.2.2.2⟩

/-- **C9.** When the batch runs: if the run parses the mapping and the parser
returns a non-empty `m`, then with `-y` standard input is not read, and with
`-y`, or with an answer whose trimmed, lower-cased form is empty, `y` or `yes`,
`MassRename` is invoked exactly once, with exactly `m`. -/
theorem batch_invoked_once (f : Flags) (e : Env) (m : List RenameEntry)
    (hparse : ∃ file, Event.parseMap file ∈ (run f e).trace)
    (hp : e.parse = .ok m) (hne : m ≠ []) :
    (f.yesFlag = true → Event.readStdin ∉ (run f e).trace)
      ∧ ((f.yesFlag = true ∨ ∃ line, e.readLine = .ok line ∧
            (e.ToLower (e.TrimSpace line) = "" ∨ e.ToLower (e.TrimSpace line) = "y"
              ∨ e.ToLower (e.TrimSpace line) = "yes")) →
          batchCalls (run f e).trace = [m]) := by
  obtain ⟨file0, hfile0⟩ := hparse
  rcases run_cases f e with ⟨evs, ds, file, h2, h3, hmain⟩ | hsetup
  · have hyes : f.yesFlag = true → run f e = ⟨(evs ++ (announce file m ++ .massRename m
        :: (reportEvents m e.batch 0 ++ [.stdout "Finished successfully\n"]))) ++ ds,
        .returned⟩ := fun hy => by
      rw [processMapping_yes f e file _ m hp hne hy] at hmain
      exact run_of_ok f e _ hmain
    refine ⟨fun hy hread => ?_, fun hacc => ?_⟩
    · rw [hyes hy] at hread
      rcases List.mem_append.1 hread with h | h
      · rcases List.mem_append.1 h with h | h
        · exact absurd (h2 _ h) (by simp [Event.isSetupStep])
        · rcases List.mem_append.1 h with h | h
          · simp [announce] at h
          · rcases List.mem_cons.1 h with h | h
            · cases h
            · rcases List.mem_append.1 h with h | h
              · obtain ⟨text, ht⟩ := reportEvents_setup m e.batch 0 _ h
                cases ht
              · simp at h
      · exact absurd (h3 _ h) (by simp [Event.isCleanup])
    · by_cases hy : f.yesFlag = true
      · rw [hyes hy]
        simp only [batchCalls_append, batchCalls_massRename, batchCalls_stdout, batchCalls_nil,
          batchCalls_of_setup evs h2, batchCalls_announce, batchCalls_report,
          batchCalls_cleanup ds h3, List.nil_append, List.append_nil]
      · have hy1 : f.yesFlag = false := by simpa using hy
        rcases hacc with h | ⟨line, hr, ha⟩
        · exact absurd h hy
        · rw [processMapping_accept f e file line _ m hp hne hy1 hr ha] at hmain
          rw [run_of_ok f e _ hmain]
          simp only [batchCalls_append, batchCalls_massRename, batchCalls_stdout,
            batchCalls_nil, batchCalls_askUser, batchCalls_of_setup evs h2, batchCalls_announce,
            batchCalls_report, batchCalls_cleanup ds h3, List.nil_append, List.append_nil]
  · exact absurd (hsetup _ hfile0) (by simp [Event.isSetupStep])

/-- The answers `"\n"` (a bare newline), `"Y\n"` and `" Yes \n"` all accept:
`MassRename` is invoked once, with the parsed mapping; and with `-y` standard
input is not read. -/
theorem batch_invoked_once_witness :
    batchCalls (run {} { goEnv with readLine := .ok "\n" }).trace = [[⟨"x.go", "x.go"⟩]]
      ∧ batchCalls (run {} { goEnv with readLine := .ok "Y\n" }).trace = [[⟨"x.go", "x.go"⟩]]
      ∧ batchCalls (run {} goEnv).trace = [[⟨"x.go", "x.go"⟩]]
      ∧ Event.readStdin ∉ (run { yesFlag := true } goEnv).trace :=
  ⟨(batch_invoked_once {} { goEnv with readLine := .ok "\n" } [⟨"x.go", "x.go"⟩]
      ⟨"/tmp/1.mass-rename", by decide⟩ rfl (by decide)).2
      (Or.inr ⟨"\n", rfl, by decide⟩),
    (batch_invoked_once {} { goEnv with readLine := .ok "Y\n" } [⟨"x.go", "x.go"⟩]
      ⟨"/tmp/1.mass-rename", by decide⟩ rfl (by decide)).2
      (Or.inr ⟨"Y\n", rfl, by decide⟩),
    (batch_invoked_once {} goEnv [⟨"x.go", "x.go"⟩]
      ⟨"/tmp/1.mass-rename", by decide⟩ rfl (by decide)).2
      (Or.inr ⟨" Yes \n", rfl, by decide⟩),
    (batch_invoked_once { yesFlag := true } goEnv [⟨"x.go", "x.go"⟩]
      ⟨"/tmp/1.mass-rename", by decide⟩ rfl (by decide)).1 rfl⟩

/-- **C5.** Lenient-during-batch reporting: in a run that invokes `MassRename`
with `m` (then `m` is the parsed mapping, and it is non-empty), when the batch
returns one result per entry the driver next prints exactly one line
`Error '<Old>' => '<New>': <detail>` per failed entry, in index order, and none
for an entry that succeeded, then prints `Finished successfully`, and after that
only the deferred clean-up runs: `main` returns and the exit status is zero. -/
theorem batch_report (f : Flags) (e : Env) (m : List RenameEntry)
    (hbatch : Event.massRename m ∈ (run f e).trace) (hlen : e.batch.length = m.length) :
    e.parse = .ok m ∧ m ≠ []
      ∧ (∃ before cleanup, (run f e).trace = before ++ .massRename m
            :: (specReport m e.batch ++ .stdout "Finished successfully\n" :: cleanup)
          ∧ batchCalls before = [] ∧ ∀ ev ∈ cleanup, ev.isCleanup = true)
      ∧ (run f e).status = .returned ∧ (run f e).status.exitCode = 0 := by
  obtain ⟨hp, hne, before, cleanup, hb, hc, hrun⟩ := batch_reached f e m hbatch
  have hspec := reportEvents_eq_specReport e.batch [] m hlen
  simp only [List.nil_append, List.length_nil] at hspec
  rw [hspec] at hrun
  rw [hrun]
  exact ⟨hp, hne, ⟨before, cleanup, rfl, hb, hc⟩, rfl, rfl⟩

/-- A batch over two entries of which the first fails: one line is printed for
it, none for the second, then `Finished successfully`; the temporary file is
cleaned up and the exit status is zero. -/
theorem batch_report_witness :
    (run { yesFlag := true } { goEnv with
        parse := .ok [⟨"x.go", "y.txt"⟩, ⟨"y.txt", "z.txt"⟩],
        batch := [some "file exists", none] }).trace
      = [.createTemp, .walk ".", .writeString "/tmp/1.mass-rename" "x.go => x.go\n" true,
          .writeString "/tmp/1.mass-rename" "y.txt => y.txt\n" true,
          .editorStart "/tmp/1.mass-rename", .editorWait, .seekStart "/tmp/1.mass-rename",
          .parseMap "/tmp/1.mass-rename", .stdout "Renaming:\n",
          .stdout "- 'x.go' => 'y.txt'\n", .stdout "- 'y.txt' => 'z.txt'\n", .stdout "\n",
          .massRename [⟨"x.go", "y.txt"⟩, ⟨"y.txt", "z.txt"⟩],
          .stdout "Error 'x.go' => 'y.txt': file exists\n", .stdout "Finished successfully\n",
          .close "/tmp/1.mass-rename", .remove "/tmp/1.mass-rename"]
      ∧ (run { yesFlag := true } { goEnv with
        parse := .ok [⟨"x.go", "y.txt"⟩, ⟨"y.txt", "z.txt"⟩],
        batch := [some "file exists", none] }).status.exitCode = 0 :=
  ⟨by decide,
    (batch_report { yesFlag := true } { goEnv with
        parse := .ok [⟨"x.go", "y.txt"⟩, ⟨"y.txt", "z.txt"⟩],
        batch := [some "file exists", none] } [⟨"x.go", "y.txt"⟩, ⟨"y.txt", "z.txt"⟩]
      (by decide) rfl).2.2.2.2⟩

/-- **C6.** Declining confirmation: without `-y`, when the run parses the mapping
and the parser returns a non-empty `m`, and the line read from standard input
has a trimmed, lower-cased form that is none of the empty text, `y` and `yes`,
the run ends with the question, the read and the line `Stopping here`, exits
with status zero, and never invokes `MassRename`. -/
theorem decline_stops (f : Flags) (e : Env) (m : List RenameEntry) (line : String)
    (hparse : ∃ file, Event.parseMap file ∈ (run f e).trace)
    (hp : e.parse = .ok m) (hne : m ≠ []) (hy : f.yesFlag = false)
    (hr : e.readLine = .ok line)
    (hno : ¬ (e.ToLower (e.TrimSpace line) = "" ∨ e.ToLower (e.TrimSpace line) = "y"
      ∨ e.ToLower (e.TrimSpace line) = "yes")) :
    (∃ before, (run f e).trace = before ++ [.stdout "Do you wish to rename these files? [Y/n] ",
        .readStdin, .stdout "Stopping here\n"])
      ∧ (run f e).status = .exited 0 ∧ (run f e).status.exitCode = 0
      ∧ batchCalls (run f e).trace = []
      ∧ ∀ m1, Event.massRename m1 ∉ (run f e).trace := by
  obtain ⟨file0, hfile0⟩ := hparse
  rcases run_cases f e with ⟨evs, ds, file, h2, h3, hmain⟩ | hsetup
  · rw [processMapping_decline f e file line _ m hp hne hy hr hno] at hmain
    have hrun := run_of_exit f e _ _ hmain
    have hcalls : batchCalls (run f e).trace = [] := by
      rw [hrun]
      simp only [batchCalls_append, batchCalls_stdout, batchCalls_nil, batchCalls_announce,
        batchCalls_askUser, batchCalls_of_setup evs h2, List.append_nil]
    refine ⟨⟨evs ++ announce file m, ?_⟩, ?_, ?_, hcalls, fun m1 h => ?_⟩
    · rw [hrun]
      simp [askUser]
    · rw [hrun]
    · rw [hrun]
      rfl
    · have := (mem_batchCalls m1 _).1 h
      rw [hcalls] at this
      simp at this
  · exact absurd (hsetup _ hfile0) (by simp [Event.isSetupStep])

/-- The answer `"n\n"`: the run stops with status zero and nothing is renamed; the
temporary file stays, since `os.Exit` skips the deferred calls. -/
theorem decline_stops_witness :
    (run {} { goEnv with readLine := .ok "n\n" })
      = ⟨[.createTemp, .walk ".", .writeString "/tmp/1.mass-rename" "x.go => x.go\n" true,
          .writeString "/tmp/1.mass-rename" "y.txt => y.txt\n" true,
          .editorStart "/tmp/1.mass-rename", .editorWait, .seekStart "/tmp/1.mass-rename",
          .parseMap "/tmp/1.mass-rename", .stdout "Renaming:\n",
          .stdout "- 'x.go' => 'x.go'\n", .stdout "\n",
          .stdout "Do you wish to rename these files? [Y/n] ", .readStdin,
          .stdout "Stopping here\n"], .exited 0⟩
      ∧ batchCalls (run {} { goEnv with readLine := .ok "n\n" }).trace = [] :=
  ⟨by decide,
    (decline_stops {} { goEnv with readLine := .ok "n\n" } [⟨"x.go", "x.go"⟩] "n\n"
      ⟨"/tmp/1.mass-rename", by decide⟩ rfl (by decide) rfl rfl (by decide)).2.2.2.1⟩

/-! ## Where the driver departs from its error policy -/

/-- **C2.** A traversal error does not abort the walk.  Over a directory whose
sub-directory `sub` cannot be read, `genWalkList` still writes the line of
`x.go`, prints no error and returns; over a directory with an entry that cannot
be examined it panics without printing; and on no input at all does it leave
through `os.Exit`, so the branch of main.go:130-133 is never taken. -/
theorem traversal_error_not_fatal :
    finish (genWalkList {} unreadableEnv "list.txt")
        = ⟨[.walk ".", .writeString "list.txt" "x.go => x.go\n" true], .returned⟩
      ∧ finish (genWalkList {} vanishedEnv "list.txt") = ⟨[.walk "."], .panicked⟩
      ∧ ∀ (f : Flags) (e : Env) (w : String) (code : Nat),
          (finish (genWalkList f e w)).status ≠ .exited code := by
  refine ⟨by decide, by decide, fun f e w code => ?_⟩
  rcases Walk_walkFn_no_error e.Match f.patternFlag e.visits [] with h | ⟨glob, h⟩
  · simp [finish, genWalkList, Proc.bind, emit, nilDeref, h]
  · obtain ⟨s1, hs1⟩ := writeLoop_returns e w glob 0 { trace := [.walk "."] }
    simp [finish, genWalkList, Proc.bind, emit, h, hs1]

/-- **C3.** A failed write of a generated line does not stop the run before the
batch: without `-g` and `-f` and with `-y`, when the write to the temporary file
fails, `genWalkList` prints its message and returns, the editor is opened, the
mapping is parsed and `MassRename` is invoked. -/
theorem failed_write_reaches_batch :
    run { yesFlag := true } fullDiskEnv
      = ⟨[.createTemp, .walk ".",
          .writeString "/tmp/1.mass-rename" "x.go => x.go\n" false,
          .stdout "[Error] Failed to write \n",
          .editorStart "/tmp/1.mass-rename", .editorWait, .seekStart "/tmp/1.mass-rename",
          .parseMap "/tmp/1.mass-rename", .stdout "Renaming:\n",
          .stdout "- 'x.go' => 'y.go'\n", .stdout "\n",
          .massRename [⟨"x.go", "y.go"⟩], .stdout "Finished successfully\n",
          .close "/tmp/1.mass-rename", .remove "/tmp/1.mass-rename"], .returned⟩ := by
  decide

/-- **C4.** A line beginning with `[Error]` that is not followed by a non-zero
exit: with `-g list.txt`, when the write to `list.txt` fails, the run prints
`[Error] Failed to write ` and `main` returns, so the exit status is zero. -/
theorem failed_write_exits_zero :
    run { genFlag := "list.txt" } fullDiskEnv
        = ⟨[.osCreate "list.txt", .walk ".", .writeString "list.txt" "x.go => x.go\n" false,
            .stdout "[Error] Failed to write \n"], .returned⟩
      ∧ (run { genFlag := "list.txt" } fullDiskEnv).status.exitCode = 0 := by
  constructor <;> decide

end MassRename
